import Mathlib

/-!
Verification development for the Chatbot repository (question-answering
pipeline over a tabular knowledge base).

The source is JavaScript (`src/server.js` plus variant files
`src/unnamed/part_000..part_002`).  This file gives a shallow embedding of
the algorithmic core — tokenizer/normalizer, TF-IDF index builder, hybrid
scorer, extractive summarizer, and the answer router — and proves or
refutes the specification claims about it.

Modelling conventions:
* JavaScript strings are Lean `String`s (lists of characters); the
  JavaScript whitespace class `\s` is modelled by `isSpaceJS` (the common
  whitespace characters) and `String.prototype.toLowerCase` by the ASCII
  case map `asciiLower` (after normalization only `[a-z0-9 ]` survive, so
  nothing downstream depends on non-ASCII case behaviour).
* Numbers are real (`ℝ`); `Math.sqrt` is `Real.sqrt`, `Math.log` is
  `Real.log`.  Definitions whose values live in `ℝ` are `noncomputable`;
  everything on the string/token level is executable.
* A spreadsheet row (`Record`) is an association list of field names to
  string values; a JavaScript falsy field (absent or `""`) is `none` under
  `truthyGet`.  Numeric cell values are modelled by their string rendering.
* `Array.prototype.sort` with comparator `(a, b) => b.score - a.score` is a
  stable descending sort; it is modelled by `List.insertionSort` with the
  relation `b.score ≤ a.score`, which is stable and sorts descending, hence
  produces the identical list.
* External collaborators (page fetcher, generic web-answer provider) are
  function parameters `String → Option String`, returning `none` for the
  "unavailable/blocked" outcome, as the spec's §6 interfaces prescribe.
-/

namespace Chatbot

/-- The JavaScript `\s` whitespace class (the characters that occur in
practice: space, tab, newline, carriage return, vertical tab, form feed,
and no-break space). From the regexes in `src/server.js` lines 62-67. -/
def isSpaceJS (c : Char) : Bool :=
  c = ' ' || c = '\t' || c = '\n' || c = '\r' ||
  c = Char.ofNat 11 || c = Char.ofNat 12 || c = Char.ofNat 160

/-- ASCII lower-casing, modelling `String.prototype.toLowerCase`. -/
def asciiLower (c : Char) : Char :=
  if 65 ≤ c.toNat ∧ c.toNat ≤ 90 then Char.ofNat (c.toNat + 32) else c

/-- Is `c` a lowercase ASCII letter or digit (the class `[a-z0-9]`)? -/
def isLowerAlnum (c : Char) : Bool :=
  (97 ≤ c.toNat && c.toNat ≤ 122) || (48 ≤ c.toNat && c.toNat ≤ 57)

/-- One step of `replace(/[^a-z0-9\s]/g, " ")`: a character outside
`[a-z0-9\s]` becomes a space, all others are kept. -/
def keepChar (c : Char) : Char :=
  if isLowerAlnum c || isSpaceJS c then c else ' '

/-- `replace(/\s+/g, " ")`: every maximal run of whitespace characters is
replaced by a single space. -/
def collapseWS : List Char → List Char
  | [] => []
  | c :: rest =>
    if isSpaceJS c then ' ' :: collapseWS (rest.dropWhile isSpaceJS)
    else c :: collapseWS rest
termination_by l => l.length
decreasing_by
  · exact Nat.lt_succ_of_le (List.Sublist.length_le (List.dropWhile_sublist _))
  · simp

/-- `String.prototype.trim` on character lists: drop leading and trailing
whitespace. -/
def trimChars (l : List Char) : List Char :=
  ((l.dropWhile isSpaceJS).reverse.dropWhile isSpaceJS).reverse

/-- `normalizeText` from `src/server.js` line 62-64: lowercase, replace
every character outside `[a-z0-9\s]` with a space, collapse whitespace
runs to one space, trim. -/
def normalizeChars (l : List Char) : List Char :=
  trimChars (collapseWS ((l.map asciiLower).map keepChar))

/-- `normalizeText` on strings. -/
def normalizeText (s : String) : String :=
  ⟨normalizeChars s.data⟩

/-- Split a character list into maximal runs of characters on which `p` is
false (the runs separated by `p`-characters).  `wordsBy p l` equals
JavaScript `l.split(<one-or-more p-chars>)` followed by dropping empty
pieces. -/
def wordsBy (p : Char → Bool) : List Char → List (List Char)
  | [] => []
  | c :: rest =>
    if p c then wordsBy p rest
    else (c :: rest.takeWhile (fun x => !p x)) ::
      wordsBy p (rest.dropWhile (fun x => !p x))
termination_by l => l.length
decreasing_by
  · simp
  · exact Nat.lt_succ_of_le (List.Sublist.length_le (List.dropWhile_sublist _))

/-- `tokenize` from `src/server.js` lines 65-67: normalize, then split on
whitespace runs (`split(/\s+/)`) dropping empty strings. -/
def tokenize (s : String) : List String :=
  (wordsBy isSpaceJS (normalizeText s).data).map fun l => ⟨l⟩

/-! ### Records (spreadsheet rows) -/

/-- A spreadsheet row: an association list of field names to string
values.  A field that is absent models a JavaScript `undefined` cell;
numeric cells are modelled by their rendering.  The loader attaches the
sheet name under the key `"_sheet"`. -/
abbrev Row := List (String × String)

/-- Field lookup, `row[f]` (`none` for a missing field). -/
def getField (row : Row) (f : String) : Option String :=
  (row.find? fun kv => kv.1 == f).map (·.2)

/-- Truthy field lookup: `row[f]` when that is a truthy value (present and
not the empty string), else `none`.  Models the JavaScript guard
`if (row[f])` and the skipping behaviour of `||` chains. -/
def truthyGet (row : Row) (f : String) : Option String :=
  match getField row f with
  | some v => if v = "" then none else some v
  | none => none

/-- The prioritized URL-bearing field names of
`src/server.js` line 359: `row.Link || row["Primary URL"] ||
row["Download / Service URL"] || row.URL || null`. -/
def linkFields : List String :=
  ["Link", "Primary URL", "Download / Service URL", "URL"]

/-- The resolved link of a row: first truthy field of `linkFields`. -/
def linkOf (row : Row) : Option String :=
  (linkFields.filterMap (truthyGet row)).head?

/-- The "title-like" fields of `computeColumnBoost`
(`src/server.js` line 152). -/
def titleFields : List String := ["Dataset / Reference Name", "Topic"]

/-! ### TF-IDF index machinery

`buildTfidfIndex` (`src/server.js` lines 91-137) stores, per document, the
token list, the term-frequency table and the L2-normalized tf·idf vector,
plus a global idf table over the vocabulary.  The three server variants
share these formulas exactly; they differ only in how a row's primary text
is assembled.  The definitions below therefore take the token lists
`docs : List (List String)` (one entry per row, in row order) and the
document count `N` as arguments; each variant instantiates them with its
own text-assembly function. -/

/-- `document_frequency(t)`: the number of documents whose
term-frequency table has `t` (equivalently whose token list contains
`t`). -/
def dfOf (docs : List (List String)) (t : String) : ℕ :=
  (docs.filter fun toks => decide (t ∈ toks)).length

/-- The idf table: `idf[t] = Math.log((N + 1) / (df + 1)) + 1` for `t` in
the vocabulary (`df > 0`).  A token outside the vocabulary has no entry;
every use site reads the table as `idf[t] || 0`, so the lookup of a
missing token is modelled as `0`. -/
noncomputable def idfOf (docs : List (List String)) (N : ℕ) (t : String) : ℝ :=
  if 0 < dfOf docs t then
    Real.log ((N + 1 : ℝ) / (dfOf docs t + 1)) + 1
  else 0

/-- `term_frequency[t]` of a document: occurrence count in its tokens. -/
def tfOf (toks : List String) (t : String) : ℕ := toks.count t

/-- Un-normalized tf·idf weight `val = d.tf[t] * (idf[t] || 0)`. -/
noncomputable def rawW (docs : List (List String)) (N : ℕ)
    (toks : List String) (t : String) : ℝ :=
  (tfOf toks t : ℝ) * idfOf docs N t

/-- `norm`: the sum of squared raw weights over the document's distinct
tokens (the keys of its term-frequency table). -/
noncomputable def docNormSq (docs : List (List String)) (N : ℕ)
    (toks : List String) : ℝ :=
  (toks.dedup.map fun t => rawW docs N toks t ^ 2).sum

/-- `denom = Math.sqrt(norm) || 1`. -/
noncomputable def docDenom (docs : List (List String)) (N : ℕ)
    (toks : List String) : ℝ :=
  if Real.sqrt (docNormSq docs N toks) = 0 then 1
  else Real.sqrt (docNormSq docs N toks)

/-- The document's normalized tf·idf vector as a total function: a token
in the document maps to `val / denom`, any other token to `0` (a missing
key of the JavaScript object). -/
noncomputable def tfidfOf (docs : List (List String)) (N : ℕ)
    (toks : List String) (t : String) : ℝ :=
  if t ∈ toks then rawW docs N toks t / docDenom docs N toks else 0

/-- Query-side raw weight `val = qtf[t] * (idf[t] || 0)`
(`cosineAgainstDocs`, `src/server.js` lines 164-184). -/
noncomputable def qRawW (docs : List (List String)) (N : ℕ)
    (qTokens : List String) (t : String) : ℝ :=
  (qTokens.count t : ℝ) * idfOf docs N t

/-- Query vector squared norm over the distinct query tokens. -/
noncomputable def qNormSq (docs : List (List String)) (N : ℕ)
    (qTokens : List String) : ℝ :=
  (qTokens.dedup.map fun t => qRawW docs N qTokens t ^ 2).sum

/-- `qnorm = Math.sqrt(qnorm) || 1`. -/
noncomputable def qDenom (docs : List (List String)) (N : ℕ)
    (qTokens : List String) : ℝ :=
  if Real.sqrt (qNormSq docs N qTokens) = 0 then 1
  else Real.sqrt (qNormSq docs N qTokens)

/-- The L2-normalized query tf·idf weight of token `t`. -/
noncomputable def qMapOf (docs : List (List String)) (N : ℕ)
    (qTokens : List String) (t : String) : ℝ :=
  qRawW docs N qTokens t / qDenom docs N qTokens

/-- The sparse dot product of the query vector against one document:
`for (const k in qmap) if (d.tfidf[k]) dot += qmap[k] * d.tfidf[k]`.
The iteration is over the distinct query tokens; a key whose document
entry is falsy (absent or zero) contributes nothing. -/
noncomputable def cosineOf (docs : List (List String)) (N : ℕ)
    (qTokens toks : List String) : ℝ :=
  (qTokens.dedup.map fun t =>
    if tfidfOf docs N toks t ≠ 0 then
      qMapOf docs N qTokens t * tfidfOf docs N toks t
    else 0).sum

/-! ### Shared scorer components -/

/-- `jaccardScore(qSet, docTokens)` (`src/server.js` lines 142-150):
intersection size over union size of the query token set and the document
token set, with the union size clamped to at least 1. -/
noncomputable def jaccardScore (qSet : Finset String) (docTokens : List String) : ℝ :=
  let s2 := docTokens.toFinset
  let uni := (qSet ∪ s2).card
  ((qSet ∩ s2).card : ℝ) / (if uni = 0 then 1 else (uni : ℝ))

/-- `computeColumnBoost(qTokens, row)` (`src/server.js` lines 151-163):
for each truthy title-like field, add `0.15` for every query token
occurrence found in the field's tokenization; finally cap at `0.5`. -/
noncomputable def computeColumnBoost (qTokens : List String) (row : Row) : ℝ :=
  min
    (titleFields.foldl
      (fun b f =>
        match truthyGet row f with
        | some v => qTokens.foldl
            (fun b2 q => if q ∈ tokenize v then b2 + 0.15 else b2) b
        | none => b)
      0)
    0.5

/-- Spec-side description of the field-match bonus (claim C8): the number
of (title-like field, query-token occurrence) pairs such that the field is
truthy and the token appears in the field's tokenization.  The claimed
bonus is `min (0.15 * this) 0.5`. -/
def boostMatchCount (qTokens : List String) (row : Row) : ℕ :=
  (titleFields.map fun f =>
    match truthyGet row f with
    | some v => qTokens.countP fun q => decide (q ∈ tokenize v)
    | none => 0).sum

/-- `cosineSimilarity(aTokens, bTokens)` (`src/server.js` lines 72-82):
bag-of-words cosine over the union of the two token multisets, `0` when
either magnitude is `0`. -/
noncomputable def cosineSimilarity (aTokens bTokens : List String) : ℝ :=
  let all := (aTokens ++ bTokens).dedup
  let dot := (all.map fun t => (aTokens.count t : ℝ) * (bTokens.count t : ℝ)).sum
  let magA := Real.sqrt (all.map fun t => ((aTokens.count t : ℝ)) ^ 2).sum
  let magB := Real.sqrt (all.map fun t => ((bTokens.count t : ℝ)) ^ 2).sum
  if magA = 0 ∨ magB = 0 then 0 else dot / (magA * magB)

/-- Number of tokens of the line that occur in the query token list
(`t.filter(x => qTokens.includes(x)).length` in the summarizers). -/
def overlapCount (qTokens t : List String) : ℕ :=
  t.countP fun x => decide (x ∈ qTokens)

/-! ### Substring containment (`String.prototype.includes`) -/

/-- Is `needle` a prefix of `hay`? -/
def isPrefixList : List Char → List Char → Bool
  | [], _ => true
  | _ :: _, [] => false
  | a :: as, b :: bs => a == b && isPrefixList as bs

/-- `hay.includes(needle)`: substring containment. -/
def containsSub (needle : List Char) : List Char → Bool
  | [] => needle.isEmpty
  | c :: rest => isPrefixList needle (c :: rest) || containsSub needle rest

/-- `String.prototype.toLowerCase` on strings (ASCII model). -/
def lowerString (s : String) : String := ⟨s.data.map asciiLower⟩

/-- `String.prototype.trim` on strings. -/
def trimString (s : String) : String := ⟨trimChars s.data⟩

end Chatbot

namespace Chatbot.SrvJs

open Chatbot

/-- Primary text of a row (`buildTfidfIndex`, `src/server.js` lines
98-103): the truthy values among the name/topic/description fields joined
by spaces; if none is truthy, all field values joined by spaces. -/
def docText (row : Row) : String :=
  let parts := ["Dataset / Reference Name", "Topic", "Description"].filterMap
    (truthyGet row)
  if parts = [] then " ".intercalate (row.map (·.2))
  else " ".intercalate parts

/-- Token list of one row's document. -/
def docTokens (row : Row) : List String := tokenize (docText row)

/-- The index's documents, one token list per row, in row order. -/
def docTokenLists (data : List Row) : List (List String) :=
  data.map docTokens

/-- `const N = docs.length || 1` (`src/server.js` line 113). -/
def NOf (data : List Row) : ℕ :=
  if data.length = 0 then 1 else data.length

/-- The idf table of the built index. -/
noncomputable def idf (data : List Row) (t : String) : ℝ :=
  idfOf (docTokenLists data) (NOf data) t

/-- The tf·idf vector of the row with token list `toks`. -/
noncomputable def tfidf (data : List Row) (toks : List String) (t : String) : ℝ :=
  tfidfOf (docTokenLists data) (NOf data) toks t

/-- One entry of `hybridRank`'s result list (`src/server.js` lines
196-203).  The `confidence` field is attached after sorting; entries
carry `0` until then. -/
structure HRes where
  row : Row
  rowIndex : ℕ
  score : ℝ
  cosine : ℝ
  jaccard : ℝ
  columnBoost : ℝ
  confidence : ℝ

noncomputable instance : DecidableRel fun a b : HRes => b.score ≤ a.score :=
  fun _ _ => Real.decidableLE _ _

instance : IsTotal HRes fun a b => b.score ≤ a.score :=
  ⟨fun a b => le_total b.score a.score⟩

instance : IsTrans HRes fun a b => b.score ≤ a.score :=
  ⟨fun _ _ _ h1 h2 => le_trans h2 h1⟩

/-- One entry of `results` in `hybridRank` (`src/server.js` lines
190-204): the combined score
`0.55 * cosine + 0.25 * jaccard + 0.2 * columnBoost` of row `i`. -/
noncomputable def scoreRow (data : List Row) (qT : List String)
    (i : ℕ) (row : Row) : HRes :=
  let toks := docTokens row
  let cos := cosineOf (docTokenLists data) (NOf data) qT toks
  let js := jaccardScore qT.toFinset toks
  let cb := computeColumnBoost qT row
  { row := row, rowIndex := i,
    score := 0.55 * cos + 0.25 * js + 0.2 * cb,
    cosine := cos, jaccard := js, columnBoost := cb, confidence := 0 }

/-- `results` of `hybridRank`: one scored entry per row, in row order. -/
noncomputable def rawResults (data : List Row) (question : String) : List HRes :=
  data.enum.map fun p => scoreRow data (tokenize question) p.1 p.2

/-- `results.sort((a, b) => b.score - a.score)`: stable descending sort. -/
noncomputable def sortedResults (data : List Row) (question : String) : List HRes :=
  List.insertionSort (fun a b => b.score ≤ a.score) (rawResults data question)

/-- `const max = results[0] ? results[0].score : 1`. -/
noncomputable def maxScore (data : List Row) (question : String) : ℝ :=
  match sortedResults data question with
  | [] => 1
  | x :: _ => x.score

/-- `hybridRank(question)` (`src/server.js` lines 185-210): the sorted
results with `confidence = max ? r.score / max : 0` attached. -/
noncomputable def hybridRank (data : List Row) (question : String) : List HRes :=
  (sortedResults data question).map fun r =>
    { r with confidence :=
        if maxScore data question = 0 then 0
        else r.score / maxScore data question }

/-! ### Local summarizer (`extractTopSentences`, `src/server.js` 284-306) -/

/-- Candidate lines: split the page text on newline runs, trim each piece,
drop the empty ones. -/
def sentencesOf (txt : String) : List String :=
  (((wordsBy (fun c => c == '\n') txt.data).map trimChars).filter
    (· ≠ [])).map fun l => ⟨l⟩

/-- Relevance score of one candidate line:
`0.5 * sim + 0.3 * jaccard + 0.2 * (overlap / (qTokens.length || 1))`. -/
noncomputable def lineScore (qTokens : List String) (s : String) : ℝ :=
  let t := tokenize s
  0.5 * cosineSimilarity qTokens t +
  0.3 * jaccardScore qTokens.toFinset t +
  0.2 * ((overlapCount qTokens t : ℝ) /
    (if qTokens.length = 0 then 1 else (qTokens.length : ℝ)))

noncomputable instance : DecidableRel fun a b : String × ℝ => b.2 ≤ a.2 :=
  fun _ _ => Real.decidableLE _ _

instance : IsTotal (String × ℝ) fun a b => b.2 ≤ a.2 :=
  ⟨fun a b => le_total b.2 a.2⟩

instance : IsTrans (String × ℝ) fun a b => b.2 ≤ a.2 :=
  ⟨fun _ _ _ h1 h2 => le_trans h2 h1⟩

/-- The output-assembly loop of `extractTopSentences` (lines 301-304):
`for (let i = 0; i < top.length; i += 2) out += top.slice(i, i+2).join(" ") + "\n\n"`.
Consecutive pairs of selected lines are joined by a single space; each
pair is followed by a blank-line separator. -/
def pairJoin : List String → String
  | [] => ""
  | [a] => a ++ "\n\n"
  | a :: b :: rest => a ++ " " ++ b ++ "\n\n" ++ pairJoin rest

/-- `extractTopSentences(pageText, question)` (`src/server.js` lines
284-306): `null` for falsy input or no candidate lines; otherwise score
all candidate lines, sort descending (stable), take the top 6, and emit
them pairwise-joined, trimming the trailing blank line. -/
noncomputable def extractTopSentences (pageText : Option String)
    (question : String) : Option String :=
  match pageText with
  | none => none
  | some txt =>
    if txt = "" then none
    else
      match sentencesOf txt with
      | [] => none
      | _ :: _ =>
        let qT := tokenize question
        let scored := (sentencesOf txt).map fun s => (s, lineScore qT s)
        let sorted := List.insertionSort (fun a b : String × ℝ => b.2 ≤ a.2) scored
        let top := (sorted.take 6).map (·.1)
        some (trimString (pairJoin top))

/-! ### Small talk and the `/ask` router (`src/server.js` 311-401) -/

/-- The small-talk table, in object-literal order (the order
`for (const s in smallTalk)` iterates string keys). -/
def smallTalkTable : List (String × String) :=
  [("hi", "Hi there! 👋 How can I help you today?"),
   ("hello", "Hello! 😊 What do you want to know?"),
   ("hey", "Hey! Ask me anything!"),
   ("how are you", "I'm doing great! Thanks for asking 😊"),
   ("bye", "Goodbye! 👋"),
   ("thanks", "You're welcome! 🙌"),
   ("thank you", "Happy to help! 😊")]

/-- The first table entry (in iteration order) whose key is a substring of
the lowercased question; its canned reply. -/
def firstSmallTalk (lq : String) : Option String :=
  (smallTalkTable.find? fun kv => containsSub kv.1.data lq.data).map (·.2)

/-- The static reply of the empty-dataset branch
(`src/server.js` line 347). -/
def emptyDataMessage : String :=
  "Excel dataset is empty or not found on server. Please upload the XLSX file next to server.js."

/-- The anti-bot interstitial phrases (`src/server.js` line 375). -/
def blockedSignatures : List String :=
  ["verifying you are human", "ray id", "access denied",
   "please enable javascript", "checking your browser"]

/-- `confidence = Number(best.confidence.toFixed(3))`: round to three
decimals, half away from zero (the values in play are nonnegative). -/
noncomputable def round3 (x : ℝ) : ℝ :=
  (⌊x * 1000 + 1 / 2⌋ : ℝ) / 1000

/-- The response produced by the `/ask` handler of `src/server.js`.  One
constructor per `return res.json(...)` site, carrying the data that
branch's answer is built from.  Note there is no web-answer constructor:
this variant has no generic web-answer path at all. -/
inductive SResp where
  | prompt
  | smallTalk (reply : String)
  | emptyData (msg : String)
  | noMatches
  | hybridFallback (row : Row) (confidence : ℝ)
  | blockedDump (row : Row) (link : String) (confidence : ℝ)
  | limitedDump (row : Row) (link : String) (confidence : ℝ)
  | scraped (summary : String) (link : String) (confidence : ℝ)

/-- The branch tags of `SResp`, for payload-independent comparisons. -/
inductive SBranch where
  | prompt | smallTalk | emptyData | noMatches | fallback | blocked
  | limited | scraped
deriving DecidableEq

/-- The branch a response was produced by. -/
def branchOf : SResp → SBranch
  | .prompt => .prompt
  | .smallTalk _ => .smallTalk
  | .emptyData _ => .emptyData
  | .noMatches => .noMatches
  | .hybridFallback _ _ => .fallback
  | .blockedDump _ _ _ => .blocked
  | .limitedDump _ _ _ => .limited
  | .scraped _ _ _ => .scraped

/-- The `/ask` handler of `src/server.js` (lines 336-401) as a function of
the loaded rows, the raw question, and the page fetcher (`fetchPageText`,
an external effect returning `none` for failure). -/
noncomputable def serverAsk (data : List Row) (rawQ : String)
    (fetch : String → Option String) : SResp :=
  let q := trimString rawQ
  if q = "" then .prompt
  else
    match firstSmallTalk (lowerString q) with
    | some reply => .smallTalk reply
    | none =>
      if data = [] then .emptyData emptyDataMessage
      else
        match hybridRank data q with
        | [] => .noMatches
        | best :: _ =>
          let row := best.row
          let conf := round3 best.confidence
          match linkOf row with
          | none => .hybridFallback row conf
          | some url =>
            if conf < 0.15 then .hybridFallback row conf
            else
              let pageText := fetch url
              let blocked : Bool :=
                match pageText with
                | none => true
                | some t => t == "" ||
                    blockedSignatures.any fun s =>
                      containsSub s.data (lowerString t).data
              if blocked then .blockedDump row url conf
              else
                match extractTopSentences pageText q with
                | none => .limitedDump row url conf
                | some sm =>
                  if sm.length < 40 then .limitedDump row url conf
                  else .scraped sm url conf

end Chatbot.SrvJs

namespace Chatbot.P2

open Chatbot

/-!
The `src/unnamed/part_002` variant ("Browserless Scraping + Hybrid Local
AI").  Its text utilities, idf/tf·idf formulas, jaccard, column boost and
cosine are the same formulas as `src/server.js`; it differs in: tokenize
splits on single spaces (`split(" ")`, equal on normalized text to the
whitespace split), the primary text is assembled by plain string
concatenation, small talk is an exact-key lookup, the summarizer returns
the top 5 lines joined by blank lines, and — decisive for claim C1 — an
empty dataset routes to `generalAnswer(question)`, the generic web-answer
provider.
-/

/-- `tokenize` of part_002 (line 60-62): normalize then `split(" ")`,
dropping empty strings.  The normalized text separates tokens by single
spaces, so this splits at each space character. -/
def tokenize2 (s : String) : List String :=
  (wordsBy (fun c => c == ' ') (normalizeText s).data).map fun l => ⟨l⟩

/-- A JavaScript `undefined` field rendered into a string concatenation
(`row[f] + " "` stringifies a missing field as `"undefined"`). -/
def jsField (row : Row) (f : String) : String :=
  (getField row f).getD "undefined"

/-- Primary text of a row (part_002 `buildIndex`, lines 95-99): the
name, topic and description cells concatenated with spaces.  The
concatenation is never the empty string, so the `|| Object.values(...)`
fallback in the source is unreachable. -/
def docText2 (row : Row) : String :=
  jsField row "Dataset / Reference Name" ++ " " ++ jsField row "Topic" ++
    " " ++ jsField row "Description"

/-- Token list of one row. -/
def docTokens2 (row : Row) : List String := tokenize2 (docText2 row)

/-- The documents of the index, in row order. -/
def docTokenLists2 (data : List Row) : List (List String) :=
  data.map docTokens2

/-- `const N = docs.length` (part_002 line 112; no `|| 1` guard). -/
def NOf2 (data : List Row) : ℕ := data.length

/-- One ranked entry of part_002's `hybridRank` (lines 200-208); this
variant initializes `confidence` to `0` explicitly. -/
structure P2R where
  row : Row
  rowIndex : ℕ
  score : ℝ
  confidence : ℝ
  cosine : ℝ
  jaccard : ℝ
  columnBoost : ℝ

noncomputable instance : DecidableRel fun a b : P2R => b.score ≤ a.score :=
  fun _ _ => Real.decidableLE _ _

/-- part_002's `computeColumnBoost` (lines 149-160): identical to the
server.js one except that field values are tokenized with `tokenize2`. -/
noncomputable def computeColumnBoost2 (qTokens : List String) (row : Row) : ℝ :=
  min
    (titleFields.foldl
      (fun b f =>
        match truthyGet row f with
        | some v => qTokens.foldl
            (fun b2 q => if q ∈ tokenize2 v then b2 + 0.15 else b2) b
        | none => b)
      0)
    0.5

/-- `hybridRank(question)` of part_002 (lines 185-217).  `ranked[0]` is
read unconditionally when computing `max`, so an empty document list makes
the handler throw; that outcome is `none`. -/
noncomputable def hybridRank2 (data : List Row) (question : String) :
    Option (List P2R) :=
  let qT := tokenize2 question
  let results : List P2R := data.enum.map fun p =>
    let row := p.2
    let toks := docTokens2 row
    let cos := cosineOf (docTokenLists2 data) (NOf2 data) qT toks
    let js := jaccardScore qT.toFinset toks
    let cb := computeColumnBoost2 qT row
    { row := row, rowIndex := p.1,
      score := 0.55 * cos + 0.25 * js + 0.2 * cb,
      confidence := 0, cosine := cos, jaccard := js, columnBoost := cb }
  let sorted := List.insertionSort (fun a b : P2R => b.score ≤ a.score) results
  match sorted with
  | [] => none
  | top :: rest =>
    let m : ℝ := if top.score = 0 then 1 else top.score
    some ((top :: rest).map fun r => { r with confidence := r.score / m })

/-- part_002's summarizer (lines 262-283): the same line scoring as
server.js but with `tokenize2`, and the output is the top 5 lines joined
by blank lines, in ranking order. -/
noncomputable def lineScore2 (qTokens : List String) (s : String) : ℝ :=
  let t := tokenize2 s
  0.5 * cosineSimilarity qTokens t +
  0.3 * jaccardScore qTokens.toFinset t +
  0.2 * ((overlapCount qTokens t : ℝ) /
    (if qTokens.length = 0 then 1 else (qTokens.length : ℝ)))

/-- Candidate lines of part_002's summarizer (same split as server.js). -/
def sentencesOf2 (txt : String) : List String :=
  (((wordsBy (fun c => c == '\n') txt.data).map trimChars).filter
    (· ≠ [])).map fun l => ⟨l⟩

/-- `extractTopSentences(text, question)` of part_002 (lines 262-283). -/
noncomputable def extractTopSentences2 (text : Option String)
    (question : String) : Option String :=
  match text with
  | none => none
  | some txt =>
    if txt = "" then none
    else
      match sentencesOf2 txt with
      | [] => none
      | _ :: _ =>
        let qT := tokenize2 question
        let scored := (sentencesOf2 txt).map fun s => (s, lineScore2 qT s)
        let sorted := List.insertionSort (fun a b : String × ℝ => b.2 ≤ a.2) scored
        some ("\n\n".intercalate ((sorted.take 5).map (·.1)))

/-- part_002's small-talk table (lines 288-292). -/
def smallTalkTable2 : List (String × String) :=
  [("hi", "Hi! 👋 How can I help today?"),
   ("hello", "Hello! 😊 Ask me anything."),
   ("how are you", "I'm doing great — ready to assist!")]

/-- part_002's small-talk check is an exact object-key lookup on the
lowercased question (`smallTalk[question.toLowerCase()]`), not a
substring scan. -/
def smallTalkLookup2 (lq : String) : Option String :=
  (smallTalkTable2.find? fun kv => kv.1 == lq).map (·.2)

/-- Responses of part_002's `/ask` handler, one constructor per
`return res.json(...)` site.  `webAnswer q r` records that the generic
web-answer provider (`generalAnswer`) was invoked with query `q` and
returned `r` (`webFail q` for a falsy provider result, answered with the
static could-not-fetch message). -/
inductive P2Resp where
  | prompt
  | smallTalk (reply : String)
  | webAnswer (query : String) (result : String)
  | webFail (query : String)
  | excelFallback (row : Row) (confidence : ℝ)
  | unavailableDump (row : Row) (confidence : ℝ)
  | scraped (answer : String) (link : String) (confidence : ℝ)

/-- The query the generic web-answer provider was invoked with, if it was
invoked. -/
def invokedWebWith : Option P2Resp → Option String
  | some (.webAnswer q _) => some q
  | some (.webFail q) => some q
  | _ => none

/-- part_002's `/ask` handler (lines 306-366) as a function of the loaded
rows, the raw question, the generic web-answer provider (`generalAnswer`:
DuckDuckGo fetched through Browserless — an external collaborator per the
spec's §6, modelled as a parameter returning `none` for a falsy result)
and the page scraper.  `none` models a thrown exception
(`ranked[0]` on an empty ranking, impossible here because the excel branch
requires a nonempty dataset). -/
noncomputable def p2Ask (data : List Row) (rawQ : String)
    (general : String → Option String) (scrape : String → Option String) :
    Option P2Resp :=
  let q := trimString rawQ
  if q = "" then some .prompt
  else
    match smallTalkLookup2 (lowerString q) with
    | some reply => some (.smallTalk reply)
    | none =>
      if data = [] then
        match general q with
        | some t => if t = "" then some (.webFail q) else some (.webAnswer q t)
        | none => some (.webFail q)
      else
        match hybridRank2 data q with
        | none => none
        | some [] => none
        | some (best :: _) =>
          let row := best.row
          let conf := SrvJs.round3 best.confidence
          match linkOf row with
          | none => some (.excelFallback row conf)
          | some url =>
            match scrape url with
            | none => some (.unavailableDump row conf)
            | some t =>
              if t.length < 100 then some (.unavailableDump row conf)
              else
                match extractTopSentences2 (some t) q with
                | some sm =>
                  if sm = "" then
                    some (.scraped (⟨t.data.take 500⟩) url conf)
                  else some (.scraped sm url conf)
                | none => some (.scraped (⟨t.data.take 500⟩) url conf)

end Chatbot.P2

namespace Chatbot.P1b

open Chatbot

/-!
The second variant inside `src/unnamed/part_001` (lines 391-651,
"Hybrid Excel AI + Free Web Search").  It ranks with TF-IDF cosine only
(`rankExcel`), and — decisive for claim C2 — routes to the web-search
provider exactly when the top result's confidence is below `0.40`; the
link field plays no role in that decision, and there is no scraping at
all in this variant.
-/

/-- Primary text of a row (part_001 line 483-487): the first truthy one
of the name/topic/description cells (`||` chain), else all values
joined by spaces. -/
def docTextV2 (row : Row) : String :=
  match ["Dataset / Reference Name", "Topic", "Description"].filterMap
    (truthyGet row) with
  | v :: _ => v
  | [] => " ".intercalate (row.map (·.2))

/-- Token list of one row. -/
def docTokensV2 (row : Row) : List String := tokenize (docTextV2 row)

/-- The documents of the index, in row order. -/
def docTokenListsV2 (data : List Row) : List (List String) :=
  data.map docTokensV2

/-- `const N = docs.length || 1` (part_001 line 499). -/
def NOfV2 (data : List Row) : ℕ :=
  if data.length = 0 then 1 else data.length

/-- One entry of `rankExcel`'s result list (part_001 lines 539-547). -/
structure P1bR where
  score : ℝ
  row : Row
  rowIndex : ℕ
  confidence : ℝ

noncomputable instance : DecidableRel fun a b : P1bR => b.score ≤ a.score :=
  fun _ _ => Real.decidableLE _ _

/-- `rankExcel(question)` (part_001 lines 525-554): pure TF-IDF cosine
scores, sorted descending (stable); `max = results[0].score || 1`, and
`confidence = score / max`.  Reading `results[0]` of an empty result list
throws; that outcome is `none`. -/
noncomputable def rankExcel (data : List Row) (question : String) :
    Option (List P1bR) :=
  let qT := tokenize question
  let results : List P1bR := data.enum.map fun p =>
    { score := cosineOf (docTokenListsV2 data) (NOfV2 data) qT (docTokensV2 p.2),
      row := p.2, rowIndex := p.1, confidence := 0 }
  let sorted := List.insertionSort (fun a b : P1bR => b.score ≤ a.score) results
  match sorted with
  | [] => none
  | top :: rest =>
    let m : ℝ := if top.score = 0 then 1 else top.score
    some ((top :: rest).map fun r => { r with confidence := r.score / m })

/-- part_001's `SMALL_TALK` table (lines 584-591), iteration order. -/
def smallTalkTableV2 : List (String × String) :=
  [("hi", "Hi! 👋 How can I help today?"),
   ("hello", "Hello! 😊 What would you like to know?"),
   ("hey", "Hey! 🙌 Ask me anything."),
   ("how are you", "I'm great — ready to help!"),
   ("thanks", "You're welcome!"),
   ("thank you", "Happy to help 😊")]

/-- First table key (iteration order) contained in the lowercased
question. -/
def firstSmallTalkV2 (lq : String) : Option String :=
  (smallTalkTableV2.find? fun kv => containsSub kv.1.data lq.data).map (·.2)

/-- Responses of part_001-v2's `/ask` handler. `webSearch q a` records
the web-search provider invoked with query `q`, answering `a`. -/
inductive P1bResp where
  | prompt
  | smallTalk (reply : String)
  | webSearch (query : String) (answer : String)
  | excelAnswer (row : Row) (confidence : ℝ)

/-- part_001-v2's `/ask` handler (lines 607-644) as a function of the
loaded rows, the raw question and the web-search provider (`webSearch`,
an external collaborator always producing a string).  `none` models the
exception thrown by `ranked[0].confidence` on an empty dataset. -/
noncomputable def p1bAsk (data : List Row) (rawQ : String)
    (web : String → String) : Option P1bResp :=
  let q := trimString rawQ
  if q = "" then some .prompt
  else
    match firstSmallTalkV2 (lowerString q) with
    | some reply => some (.smallTalk reply)
    | none =>
      match rankExcel data q with
      | none => none
      | some [] => none
      | some (best :: _) =>
        if best.confidence < 0.40 then some (.webSearch q (web q))
        else some (.excelAnswer best.row best.confidence)

end Chatbot.P1b


namespace Chatbot

/-! ### Structural lemmas about `wordsBy`, `collapseWS` and `trimChars` -/

theorem wordsBy_nil_of_all {p : Char → Bool} {s : List Char}
    (h : ∀ c ∈ s, p c = true) : wordsBy p s = [] := by
  induction s with
  | nil => simp [wordsBy]
  | cons c rest ih =>
    have hc : p c = true := h c (List.mem_cons_self c rest)
    simp only [wordsBy, hc, if_pos]
    exact ih fun x hx => h x (List.mem_cons_of_mem c hx)

theorem wordsBy_dropWhile {p : Char → Bool} (l : List Char) :
    wordsBy p (l.dropWhile p) = wordsBy p l := by
  induction l with
  | nil => simp
  | cons c rest ih =>
    by_cases hc : p c
    · rw [List.dropWhile_cons, if_pos hc, ih]
      simp [wordsBy, hc]
    · rw [List.dropWhile_cons, if_neg hc]

theorem wordsBy_append_all {p : Char → Bool} {s : List Char}
    (hs : ∀ c ∈ s, p c = true) :
    ∀ l : List Char, wordsBy p (l ++ s) = wordsBy p l := by
  intro l
  induction l using wordsBy.induct p with
  | case1 => simpa [wordsBy] using wordsBy_nil_of_all hs
  | case2 c rest hc ih =>
    simp only [List.cons_append, wordsBy, hc, if_pos, ih]
  | case3 c rest hc ih =>
    have hc' : p c = false := by simpa using hc
    have htkS : s.takeWhile (fun x => !p x) = [] := by
      cases s with
      | nil => rfl
      | cons a s' =>
        have : p a = true := hs a (List.mem_cons_self a s')
        simp [List.takeWhile_cons, this]
    have hdwS : s.dropWhile (fun x => !p x) = s := by
      cases s with
      | nil => rfl
      | cons a s' =>
        have : p a = true := hs a (List.mem_cons_self a s')
        simp [List.dropWhile_cons, this]
    simp only [List.cons_append, wordsBy, hc', Bool.false_eq_true, if_false]
    rw [List.takeWhile_append, List.dropWhile_append]
    by_cases hall : (rest.takeWhile fun x => !p x).length = rest.length
    · have hrest : rest.takeWhile (fun x => !p x) = rest :=
        (List.takeWhile_sublist _).eq_of_length hall
      have hdrop : rest.dropWhile (fun x => !p x) = [] := by
        have := List.takeWhile_append_dropWhile (fun x => !p x) rest
        rw [hrest] at this
        simpa using this
      rw [if_pos hall, hdrop, htkS, hdwS]
      simp [wordsBy_nil_of_all hs, wordsBy, hrest]
    · have hne : ¬(rest.dropWhile fun x => !p x).isEmpty = true := by
        intro hemp
        apply hall
        have hdrop : rest.dropWhile (fun x => !p x) = [] :=
          List.isEmpty_iff.mp hemp
        have := List.takeWhile_append_dropWhile (fun x => !p x) rest
        rw [hdrop, List.append_nil] at this
        rw [this]
      rw [if_neg hall, if_neg hne, ih]

theorem takeWhile_not_collapseWS (l : List Char) :
    (collapseWS l).takeWhile (fun x => !isSpaceJS x) =
      l.takeWhile (fun x => !isSpaceJS x) := by
  induction l using collapseWS.induct with
  | case1 => simp [collapseWS]
  | case2 c rest hc ih =>
    have hsp : isSpaceJS ' ' = true := by decide
    simp [collapseWS, hc, List.takeWhile_cons, hsp]
  | case3 c rest hc ih =>
    have hc' : isSpaceJS c = false := by simpa using hc
    simp [collapseWS, hc', List.takeWhile_cons, ih]

theorem dropWhile_not_collapseWS (l : List Char) :
    (collapseWS l).dropWhile (fun x => !isSpaceJS x) =
      collapseWS (l.dropWhile (fun x => !isSpaceJS x)) := by
  induction l using collapseWS.induct with
  | case1 => simp [collapseWS]
  | case2 c rest hc ih =>
    have hsp : isSpaceJS ' ' = true := by decide
    simp [collapseWS, hc, List.dropWhile_cons, hsp]
  | case3 c rest hc ih =>
    have hc' : isSpaceJS c = false := by simpa using hc
    simp [collapseWS, hc', List.dropWhile_cons, ih]

theorem wordsBy_collapseWS : ∀ l : List Char,
    wordsBy isSpaceJS (collapseWS l) = wordsBy isSpaceJS l
  | [] => by simp [collapseWS, wordsBy]
  | c :: rest => by
    by_cases hc : isSpaceJS c
    · have hsp : isSpaceJS ' ' = true := by decide
      have ih := wordsBy_collapseWS (rest.dropWhile isSpaceJS)
      simp only [collapseWS, hc, if_pos, wordsBy, hsp]
      rw [ih, wordsBy_dropWhile]
    · have hc' : isSpaceJS c = false := by simpa using hc
      have ih := wordsBy_collapseWS (rest.dropWhile (fun x => !isSpaceJS x))
      simp only [collapseWS, hc', Bool.false_eq_true, if_false, wordsBy]
      rw [takeWhile_not_collapseWS, dropWhile_not_collapseWS, ih]
termination_by l => l.length
decreasing_by
  · exact Nat.lt_succ_of_le (List.Sublist.length_le (List.dropWhile_sublist _))
  · exact Nat.lt_succ_of_le (List.Sublist.length_le (List.dropWhile_sublist _))

theorem wordsBy_trimChars (l : List Char) :
    wordsBy isSpaceJS (trimChars l) = wordsBy isSpaceJS l := by
  unfold trimChars
  set u := l.dropWhile isSpaceJS with hu
  have hdecomp : u = (u.reverse.dropWhile isSpaceJS).reverse ++
      (u.reverse.takeWhile isSpaceJS).reverse := by
    have h1 := List.takeWhile_append_dropWhile isSpaceJS u.reverse
    calc u = u.reverse.reverse := (List.reverse_reverse u).symm
    _ = (u.reverse.takeWhile isSpaceJS ++ u.reverse.dropWhile isSpaceJS).reverse := by
          rw [h1]
    _ = (u.reverse.dropWhile isSpaceJS).reverse ++
          (u.reverse.takeWhile isSpaceJS).reverse := by
          rw [List.reverse_append]
  have hall : ∀ c ∈ (u.reverse.takeWhile isSpaceJS).reverse, isSpaceJS c = true := by
    intro c hcmem
    exact List.mem_takeWhile_imp (List.mem_reverse.mp hcmem)
  calc wordsBy isSpaceJS (u.reverse.dropWhile isSpaceJS).reverse
      = wordsBy isSpaceJS ((u.reverse.dropWhile isSpaceJS).reverse ++
          (u.reverse.takeWhile isSpaceJS).reverse) :=
        (wordsBy_append_all hall _).symm
    _ = wordsBy isSpaceJS u := by rw [← hdecomp]
    _ = wordsBy isSpaceJS l := wordsBy_dropWhile l

theorem mem_collapseWS : ∀ {l : List Char} {c : Char}, c ∈ collapseWS l →
    c = ' ' ∨ (c ∈ l ∧ isSpaceJS c = false) := by
  intro l
  induction l using collapseWS.induct with
  | case1 => intro c hc; simp [collapseWS] at hc
  | case2 c rest hc ih =>
    intro x hx
    rw [collapseWS, if_pos hc] at hx
    rcases List.mem_cons.mp hx with h | h
    · exact Or.inl h
    · rcases ih h with h' | ⟨hmem, hns⟩
      · exact Or.inl h'
      · exact Or.inr ⟨List.mem_cons_of_mem c
          ((List.dropWhile_sublist _).mem hmem), hns⟩
  | case3 c rest hc ih =>
    intro x hx
    have hc' : isSpaceJS c = false := by simpa using hc
    rw [collapseWS, if_neg (by simp [hc'])] at hx
    rcases List.mem_cons.mp hx with h | h
    · exact Or.inr ⟨h ▸ List.mem_cons_self c rest, h ▸ hc'⟩
    · rcases ih h with h' | ⟨hmem, hns⟩
      · exact Or.inl h'
      · exact Or.inr ⟨List.mem_cons_of_mem c hmem, hns⟩

theorem mem_trimChars {l : List Char} {c : Char} (h : c ∈ trimChars l) :
    c ∈ l := by
  unfold trimChars at h
  have h1 := List.mem_reverse.mp h
  have h2 := (List.dropWhile_sublist isSpaceJS).mem h1
  have h3 := List.mem_reverse.mp h2
  exact (List.dropWhile_sublist isSpaceJS).mem h3

theorem mem_normalizeChars {l : List Char} {c : Char}
    (h : c ∈ normalizeChars l) : isLowerAlnum c = true ∨ c = ' ' := by
  unfold normalizeChars at h
  have h1 := mem_trimChars h
  rcases mem_collapseWS h1 with h2 | ⟨h2, hns⟩
  · exact Or.inr h2
  · rcases List.mem_map.mp h2 with ⟨x, _, hx⟩
    unfold keepChar at hx
    by_cases hk : isLowerAlnum x || isSpaceJS x
    · rw [if_pos hk] at hx
      subst hx
      rcases Bool.or_eq_true_iff.mp hk with h' | h'
      · exact Or.inl h'
      · rw [h'] at hns; exact absurd hns (by simp)
    · rw [if_neg hk] at hx
      exact Or.inr hx.symm

theorem asciiLower_fix {c : Char} (h : isLowerAlnum c = true ∨ c = ' ') :
    asciiLower c = c := by
  unfold asciiLower
  rcases h with h | h
  · rcases Bool.or_eq_true_iff.mp h with h' | h' <;>
    · rw [if_neg]
      intro hcon
      simp only [Bool.and_eq_true, decide_eq_true_eq] at h'
      omega
  · subst h; rfl

theorem keepChar_fix {c : Char} (h : isLowerAlnum c = true ∨ c = ' ') :
    keepChar c = c := by
  unfold keepChar
  rcases h with h | h
  · rw [if_pos (by simp [h])]
  · subst h; rfl

theorem normalizeChars_idem (l : List Char) :
    wordsBy isSpaceJS (normalizeChars (normalizeChars l)) =
      wordsBy isSpaceJS (normalizeChars l) := by
  have hmapl : (normalizeChars l).map asciiLower = normalizeChars l := by
    rw [List.map_congr_left fun c hc => asciiLower_fix (mem_normalizeChars hc)]
    exact List.map_id' _
  have hmapk : (normalizeChars l).map keepChar = normalizeChars l := by
    rw [List.map_congr_left fun c hc => keepChar_fix (mem_normalizeChars hc)]
    exact List.map_id' _
  conv_lhs => rw [normalizeChars, hmapl, hmapk]
  rw [wordsBy_trimChars, wordsBy_collapseWS]

/-- **C7.** For every input string `x`, tokenization is idempotent through
normalization: `tokenize (normalizeText x) = tokenize x`; tokenization is a
total function (hence deterministic), and empty input yields the empty
token sequence (in `src/server.js` an `undefined` argument defaults to
`""`, which this conjunct covers). -/
theorem claim_tokenize_idempotent :
    (∀ x : String, tokenize (normalizeText x) = tokenize x) ∧
      tokenize "" = [] := by
  refine ⟨fun x => ?_, by
    simp [tokenize, normalizeText, normalizeChars, collapseWS, trimChars, wordsBy]⟩
  unfold tokenize
  congr 1
  show wordsBy isSpaceJS (normalizeChars (normalizeChars x.data)) =
    wordsBy isSpaceJS (normalizeChars x.data)
  exact normalizeChars_idem x.data

/-! ### Claim C8: the field-match bonus -/

theorem boost_foldl_eq (tkv : List String) :
    ∀ (qT : List String) (b : ℝ),
      qT.foldl (fun b2 q => if q ∈ tkv then b2 + 0.15 else b2) b =
        b + 0.15 * ((qT.countP fun q => decide (q ∈ tkv) : ℕ) : ℝ) := by
  intro qT
  induction qT with
  | nil => intro b; simp
  | cons q qs ih =>
    intro b
    by_cases hq : q ∈ tkv
    · rw [List.foldl_cons, if_pos hq, ih, List.countP_cons,
        if_pos (show decide (q ∈ tkv) = true by simpa)]
      push_cast
      ring
    · rw [List.foldl_cons, if_neg hq, ih, List.countP_cons,
        if_neg (show ¬decide (q ∈ tkv) = true by simpa)]
      push_cast
      ring

/-- **C8.** For every query token sequence and every Record, the
field-match bonus of `computeColumnBoost` equals `0.15` added once per
truthy title-like field (`"Dataset / Reference Name"`, `"Topic"`) per
query-token occurrence whose token appears in that field's tokenization,
capped at `0.5`; consequently the bonus always lies in `[0, 0.5]`. -/
theorem claim_column_boost_formula (qTokens : List String) (row : Row) :
    computeColumnBoost qTokens row =
      min (0.15 * (boostMatchCount qTokens row : ℝ)) 0.5 ∧
    0 ≤ computeColumnBoost qTokens row ∧
    computeColumnBoost qTokens row ≤ 0.5 := by
  have hfold : ∀ (f : String) (b : ℝ),
      (match truthyGet row f with
        | some v => qTokens.foldl
            (fun b2 q => if q ∈ tokenize v then b2 + 0.15 else b2) b
        | none => b) =
        b + (0.15 : ℝ) * (((match truthyGet row f with
          | some v => qTokens.countP fun q => decide (q ∈ tokenize v)
          | none => 0) : ℕ) : ℝ) := by
    intro f b
    cases truthyGet row f with
    | none => simp
    | some v => simpa using boost_foldl_eq (tokenize v) qTokens b
  have hmain : computeColumnBoost qTokens row =
      min (0.15 * (boostMatchCount qTokens row : ℝ)) 0.5 := by
    unfold computeColumnBoost boostMatchCount titleFields
    simp only [List.foldl_cons, List.foldl_nil, List.map_cons,
      List.map_nil, List.sum_cons, List.sum_nil]
    rw [hfold, hfold]
    congr 1
    push_cast
    ring
  refine ⟨hmain, ?_, ?_⟩
  · rw [hmain]
    apply le_min
    · positivity
    · norm_num
  · rw [hmain]
    exact min_le_right _ _

/-! ### Claim C9: the summarizer's no-content signal -/

theorem wordsBy_mem_chars {p : Char → Bool} : ∀ l : List Char,
    ∀ w ∈ wordsBy p l, ∀ c ∈ w, c ∈ l ∧ p c = false := by
  intro l
  induction l using wordsBy.induct p with
  | case1 => intro w hw; simp [wordsBy] at hw
  | case2 c rest hc ih =>
    intro w hw x hx
    rw [wordsBy, if_pos hc] at hw
    obtain ⟨h1, h2⟩ := ih w hw x hx
    exact ⟨List.mem_cons_of_mem c h1, h2⟩
  | case3 c rest hc ih =>
    intro w hw x hx
    have hc' : p c = false := by simpa using hc
    rw [wordsBy, if_neg (by simp [hc'])] at hw
    rcases List.mem_cons.mp hw with rfl | hw'
    · rcases List.mem_cons.mp hx with rfl | hx'
      · exact ⟨List.mem_cons_self _ _, hc'⟩
      · have h1 : x ∈ rest := (List.takeWhile_sublist _).mem hx'
        have h2 := List.mem_takeWhile_imp hx'
        exact ⟨List.mem_cons_of_mem c h1, by simpa using h2⟩
    · obtain ⟨h1, h2⟩ := ih w hw' x hx
      exact ⟨List.mem_cons_of_mem c ((List.dropWhile_sublist _).mem h1), h2⟩

theorem trimChars_nil_of_all {l : List Char}
    (h : ∀ c ∈ l, isSpaceJS c = true) : trimChars l = [] := by
  unfold trimChars
  rw [List.dropWhile_eq_nil_iff.mpr h]
  rfl

/-- **C9.** For every input with zero newline-separated non-empty lines —
`null` page text, or text all of whose characters are whitespace
(including the empty text) — the extractive summarizer returns the
no-content signal `none`, for every query; being a total function it
never throws. -/
theorem claim_summarizer_no_content (pageText : Option String)
    (question : String)
    (h : pageText = none ∨
      ∃ s, pageText = some s ∧ ∀ c ∈ s.data, isSpaceJS c = true) :
    SrvJs.extractTopSentences pageText question = none := by
  rcases h with rfl | ⟨s, rfl, hall⟩
  · rfl
  · have hsent : SrvJs.sentencesOf s = [] := by
      unfold SrvJs.sentencesOf
      have hfilter : (((wordsBy (fun c => c == '\n') s.data).map trimChars).filter
          (· ≠ [])) = [] := by
        rw [List.filter_eq_nil_iff]
        intro a ha
        rcases List.mem_map.mp ha with ⟨w, hw, rfl⟩
        have hw' : ∀ c ∈ w, isSpaceJS c = true := fun c hc =>
          hall c ((wordsBy_mem_chars _ _ hw c hc).1)
        simp [trimChars_nil_of_all hw']
      rw [hfilter]
      rfl
    by_cases hs : s = ""
    · simp [SrvJs.extractTopSentences, hs]
    · simp [SrvJs.extractTopSentences, hs, hsent]

/-- Witness for C9 at the concrete whitespace-only page text. -/
theorem claim_summarizer_no_content_witness :
    ((some "\n \n" : Option String) = none ∨
      ∃ s, (some "\n \n" : Option String) = some s ∧
        ∀ c ∈ s.data, isSpaceJS c = true) ∧
    SrvJs.extractTopSentences (some "\n \n") "any query" = none :=
  ⟨Or.inr ⟨"\n \n", rfl, by decide⟩,
    claim_summarizer_no_content _ _ (Or.inr ⟨"\n \n", rfl, by decide⟩)⟩

/-! ### Claim C10: raw substring small talk -/

/-- **C10.** The small-talk check of `src/server.js` uses raw substring
containment on the lowercased (trimmed) question: whenever some table key
is contained anywhere in it — also inside another word — the handler
replies with the canned reply of the *first such key in table iteration
order* (not the phrase occurring first in the question), for every loaded
dataset and every fetcher, i.e. before and independent of any ranking. -/
theorem claim_smalltalk_substring (data : List Row) (rawQ : String)
    (fetch : String → Option String) (reply : String)
    (hq : trimString rawQ ≠ "")
    (hfind : SrvJs.firstSmallTalk (lowerString (trimString rawQ)) = some reply) :
    SrvJs.serverAsk data rawQ fetch = SrvJs.SResp.smallTalk reply := by
  simp only [SrvJs.serverAsk, hfind, if_neg hq]

/-- Witness for C10: `"machine learning"` contains `"hi"` inside
`"machine"` and draws the `"hi"` reply; `"thanks and bye"` draws the
`"bye"` reply because `"bye"` precedes `"thanks"` in table order, even
though `"thanks"` occurs first in the question. -/
theorem claim_smalltalk_substring_witness :
    SrvJs.firstSmallTalk (lowerString (trimString "machine learning")) =
      some "Hi there! 👋 How can I help you today?" ∧
    SrvJs.serverAsk [] "machine learning" (fun _ => none) =
      SrvJs.SResp.smallTalk "Hi there! 👋 How can I help you today?" ∧
    SrvJs.firstSmallTalk (lowerString (trimString "thanks and bye")) =
      some "Goodbye! 👋" ∧
    SrvJs.serverAsk [] "thanks and bye" (fun _ => none) =
      SrvJs.SResp.smallTalk "Goodbye! 👋" :=
  ⟨by decide,
   claim_smalltalk_substring [] "machine learning" (fun _ => none) _
     (by decide) (by decide),
   by decide,
   claim_smalltalk_substring [] "thanks and bye" (fun _ => none) _
     (by decide) (by decide)⟩

/-! ### Claim C1: empty index routing -/

/-- **C1, counterexample.**  In `src/server.js` a request arriving on an
empty index is answered with a fixed static message (the same message
whatever the query), *not* by delegating to a generic web-answer provider
with the query — `src/server.js` has no web-answer path at all (its
response type `SResp` has no such constructor).  The query
`"who is the president"` is the spec's own scenario. -/
theorem claim_empty_index_counterexample :
    SrvJs.serverAsk [] "who is the president" (fun _ => none) =
      SrvJs.SResp.emptyData SrvJs.emptyDataMessage ∧
    SrvJs.serverAsk [] "total rainfall 2023" (fun _ => none) =
      SrvJs.SResp.emptyData SrvJs.emptyDataMessage := by
  constructor
  · have h1 : SrvJs.firstSmallTalk
        (lowerString (trimString "who is the president")) = none := by decide
    simp only [SrvJs.serverAsk, h1, if_true]
    rw [if_neg (show ¬trimString "who is the president" = "" by decide)]
  · have h1 : SrvJs.firstSmallTalk
        (lowerString (trimString "total rainfall 2023")) = none := by decide
    simp only [SrvJs.serverAsk, h1, if_true]
    rw [if_neg (show ¬trimString "total rainfall 2023" = "" by decide)]

/-- **C1, amended.**  It is the `part_002` variant whose Router delegates
an empty-index request directly to the generic web-answer path: for every
non-empty, non-small-talk question, `generalAnswer` is invoked with the
exact (trimmed) query string, and that branch is terminal.
(`src/server.js` instead answers such requests with a static message; see
the counterexample.) -/
theorem claim_empty_index_amended (rawQ : String)
    (general scrape : String → Option String)
    (hq : trimString rawQ ≠ "")
    (hst : P2.smallTalkLookup2 (lowerString (trimString rawQ)) = none) :
    P2.invokedWebWith (P2.p2Ask [] rawQ general scrape) =
      some (trimString rawQ) := by
  simp only [P2.p2Ask, hst, if_neg hq]
  cases hg : general (trimString rawQ) with
  | none => simp [P2.invokedWebWith]
  | some t =>
    by_cases ht : t = "" <;> simp [ht, P2.invokedWebWith]

/-- Witness for the amended C1 at the spec's scenario query. -/
theorem claim_empty_index_amended_witness :
    trimString "who is the president" ≠ "" ∧
    P2.smallTalkLookup2 (lowerString (trimString "who is the president")) =
      none ∧
    P2.invokedWebWith
      (P2.p2Ask [] "who is the president" (fun _ => none) (fun _ => none)) =
        some (trimString "who is the president") :=
  ⟨by decide, by decide,
    claim_empty_index_amended _ _ _ (by decide) (by decide)⟩

/-! ### Claim C2: the low-confidence / no-link branch -/

/-- **C2, counterexample.**  In `src/server.js` the claimed condition
(confidence below threshold OR no resolvable link) does *not* route to a
generic web-answer path: a request whose best row has no link field is
answered from the structured Excel-row dump (`matchMethod:
"hybrid-fallback"`), terminally; `src/server.js` has no web-answer path
(no such constructor exists in its response type). -/
theorem claim_lowconf_counterexample :
    linkOf [("Description", "apple")] = none ∧
    SrvJs.branchOf (SrvJs.serverAsk [[("Description", "apple")]] "zzz"
      (fun _ => none)) = SrvJs.SBranch.fallback := by
  refine ⟨by decide, ?_⟩
  have h1 : SrvJs.firstSmallTalk (lowerString (trimString "zzz")) = none := by
    decide
  have h2 : ¬trimString "zzz" = "" := by decide
  have h3 : linkOf [("Description", "apple")] = none := by decide
  have h4 : ¬([[("Description", "apple")]] : List Row) = [] := by simp
  simp only [SrvJs.serverAsk, h1, if_neg h2, if_neg h4]
  simp only [SrvJs.hybridRank, SrvJs.sortedResults, SrvJs.rawResults,
    SrvJs.scoreRow, SrvJs.maxScore, List.enum, List.enumFrom, List.map_cons,
    List.map_nil, List.insertionSort, List.orderedInsert, h3]
  rfl

/-- **C2, amended.**  It is the web-search variant (`src/unnamed/part_001`
lines 607-644) whose Router delegates to the generic web-answer path on
low confidence: whenever the top-ranked result's confidence is below the
`0.40` threshold, `webSearch` is invoked with the exact (trimmed) query
and that branch is terminal; the link field plays no role in this check.
(In `src/server.js` the low-confidence-or-no-link branch instead returns
the structured record dump; see the counterexample.) -/
theorem claim_lowconf_amended (data : List Row) (rawQ : String)
    (web : String → String) (best : P1b.P1bR) (rest : List P1b.P1bR)
    (hq : trimString rawQ ≠ "")
    (hst : P1b.firstSmallTalkV2 (lowerString (trimString rawQ)) = none)
    (hr : P1b.rankExcel data (trimString rawQ) = some (best :: rest))
    (hc : best.confidence < 0.40) :
    P1b.p1bAsk data rawQ web =
      some (P1b.P1bResp.webSearch (trimString rawQ) (web (trimString rawQ))) := by
  simp only [P1b.p1bAsk, hst, if_neg hq, hr]
  rw [if_pos hc]

/-- Witness for the amended C2: a one-row dataset and an unrelated query;
every score is `0`, hence the top confidence is `0 < 0.40` and the
handler delegates to the web-search provider with the query. -/
theorem claim_lowconf_amended_witness :
    P1b.rankExcel [[("Description", "apple")]] (trimString "zzz") =
      some [⟨0, [("Description", "apple")], 0, 0⟩] ∧
    P1b.p1bAsk [[("Description", "apple")]] "zzz" (fun _ => "w") =
      some (P1b.P1bResp.webSearch (trimString "zzz")
        ((fun _ => "w") (trimString "zzz"))) := by
  have htrim : trimString "zzz" = "zzz" := by decide
  have htok : tokenize (trimString "zzz") = ["zzz"] := by
    rw [htrim]
    simp [tokenize, normalizeText, normalizeChars, collapseWS, trimChars,
      wordsBy, keepChar, asciiLower, isLowerAlnum, isSpaceJS]
  have htoks : P1b.docTokensV2 [("Description", "apple")] = ["apple"] := by
    have : P1b.docTextV2 [("Description", "apple")] = "apple" := by decide
    rw [P1b.docTokensV2, this]
    simp [tokenize, normalizeText, normalizeChars, collapseWS, trimChars,
      wordsBy, keepChar, asciiLower, isLowerAlnum, isSpaceJS]
  have hcos : cosineOf (P1b.docTokenListsV2 [[("Description", "apple")]])
      (P1b.NOfV2 [[("Description", "apple")]]) (tokenize (trimString "zzz"))
      (P1b.docTokensV2 [("Description", "apple")]) = 0 := by
    rw [htok, htoks]
    have hmem : ("zzz" : String) ∉ (["apple"] : List String) := by decide
    simp [cosineOf, tfidfOf, hmem]
  have hrank : P1b.rankExcel [[("Description", "apple")]] (trimString "zzz") =
      some [⟨0, [("Description", "apple")], 0, 0⟩] := by
    simp only [P1b.rankExcel, List.enum, List.enumFrom, List.map_cons,
      List.map_nil, List.insertionSort, List.orderedInsert, hcos]
    norm_num
  refine ⟨hrank, claim_lowconf_amended _ _ _ _ _ (by decide) (by decide)
    hrank ?_⟩
  norm_num

/-! ### Claim C4: confidence normalization -/

/-- **C4.** Every non-empty ranking produced by `hybridRank` starts with a
top-ranked result whose score bounds every other score, whose confidence
is exactly `1` whenever the maximum score is strictly positive; and when
the maximum score is `0`, every result's confidence is `0`. -/
theorem claim_top_confidence (data : List Row) (question : String)
    (h : data ≠ []) :
    ∃ best rest, SrvJs.hybridRank data question = best :: rest ∧
      (0 < best.score → best.confidence = 1) ∧
      (best.score = 0 → ∀ x ∈ best :: rest, x.confidence = 0) ∧
      ∀ x ∈ best :: rest, x.score ≤ best.score := by
  obtain ⟨b0, rest0, hs⟩ : ∃ b0 r0,
      SrvJs.sortedResults data question = b0 :: r0 := by
    have hlen : (SrvJs.sortedResults data question).length = data.length := by
      rw [SrvJs.sortedResults, List.length_insertionSort, SrvJs.rawResults,
        List.length_map, List.enum_length]
    cases hcase : SrvJs.sortedResults data question with
    | nil =>
      rw [hcase] at hlen
      exact absurd (List.length_eq_zero.mp hlen.symm) h
    | cons b0 r0 => exact ⟨b0, r0, rfl⟩
  have hm : SrvJs.maxScore data question = b0.score := by
    rw [SrvJs.maxScore, hs]
  have hsorted : List.Sorted (fun a b : SrvJs.HRes => b.score ≤ a.score)
      (b0 :: rest0) := by
    rw [← hs]
    exact List.sorted_insertionSort _ _
  have hrank : SrvJs.hybridRank data question =
      ({ b0 with confidence :=
          if SrvJs.maxScore data question = 0 then 0
          else b0.score / SrvJs.maxScore data question }) ::
        rest0.map (fun r =>
          { r with confidence :=
              if SrvJs.maxScore data question = 0 then 0
              else r.score / SrvJs.maxScore data question }) := by
    rw [SrvJs.hybridRank, hs, List.map_cons]
  refine ⟨_, _, hrank, ?_, ?_, ?_⟩
  · intro hpos
    have hne : b0.score ≠ 0 := ne_of_gt hpos
    show (if SrvJs.maxScore data question = 0 then 0
      else b0.score / SrvJs.maxScore data question) = 1
    rw [hm, if_neg hne]
    exact div_self hne
  · intro hzero x hx
    have hm0 : SrvJs.maxScore data question = 0 := by rw [hm]; exact hzero
    rcases List.mem_cons.mp hx with rfl | hx'
    · simp [hm0]
    · rcases List.mem_map.mp hx' with ⟨y, _, rfl⟩
      simp [hm0]
  · intro x hx
    rcases List.mem_cons.mp hx with rfl | hx'
    · exact le_refl _
    · rcases List.mem_map.mp hx' with ⟨y, hy, rfl⟩
      exact List.rel_of_sorted_cons hsorted y hy

/-- Witness for C4 at a concrete one-row dataset. -/
theorem claim_top_confidence_witness :
    ([[("Description", "a")]] : List Row) ≠ [] ∧
    (∃ best rest,
      SrvJs.hybridRank [[("Description", "a")]] "a" = best :: rest ∧
      (0 < best.score → best.confidence = 1) ∧
      (best.score = 0 → ∀ x ∈ best :: rest, x.confidence = 0) ∧
      ∀ x ∈ best :: rest, x.score ≤ best.score) :=
  ⟨by simp, claim_top_confidence [[("Description", "a")]] "a" (by simp)⟩

/-! ### Claim C5: unit L2 norm of the tf·idf vectors -/

theorem dfOf_pos {docs : List (List String)} {toks : List String} {t : String}
    (hmem : toks ∈ docs) (ht : t ∈ toks) : 0 < dfOf docs t := by
  rw [dfOf]
  rw [List.length_pos]
  intro hnil
  have : toks ∈ docs.filter fun toks' => decide (t ∈ toks') :=
    List.mem_filter.mpr ⟨hmem, by simpa using ht⟩
  rw [hnil] at this
  exact absurd this (List.not_mem_nil _)

theorem dfOf_le_length (docs : List (List String)) (t : String) :
    dfOf docs t ≤ docs.length :=
  List.length_filter_le _ _

theorem idfOf_ge_one {docs : List (List String)} {N : ℕ} {t : String}
    (hdf : 0 < dfOf docs t) (hN : dfOf docs t ≤ N) :
    1 ≤ idfOf docs N t := by
  rw [idfOf, if_pos hdf]
  have hcast : ((dfOf docs t : ℝ)) ≤ (N : ℝ) := Nat.cast_le.mpr hN
  have h1 : (1 : ℝ) ≤ ((N : ℝ) + 1) / ((dfOf docs t : ℝ) + 1) := by
    rw [one_le_div (by positivity)]
    linarith
  have := Real.log_nonneg h1
  linarith

theorem docNormSq_pos {docs : List (List String)} {N : ℕ} {toks : List String}
    (hmem : toks ∈ docs) (hN : docs.length ≤ N) (hne : toks ≠ []) :
    0 < docNormSq docs N toks := by
  obtain ⟨t0, ht0⟩ := List.exists_mem_of_ne_nil toks hne
  have htf : (1 : ℝ) ≤ (tfOf toks t0 : ℝ) := by
    have : 0 < toks.count t0 := List.count_pos_iff.mpr ht0
    exact_mod_cast this
  have hdf : 0 < dfOf docs t0 := dfOf_pos hmem ht0
  have hidf : 1 ≤ idfOf docs N t0 :=
    idfOf_ge_one hdf (le_trans (dfOf_le_length docs t0) hN)
  have hterm : (1 : ℝ) ≤ rawW docs N toks t0 ^ 2 := by
    rw [rawW]
    have hx : (1 : ℝ) ≤ (tfOf toks t0 : ℝ) * idfOf docs N t0 := by nlinarith
    nlinarith [hx]
  have hmem2 : rawW docs N toks t0 ^ 2 ∈
      toks.dedup.map fun t => rawW docs N toks t ^ 2 :=
    List.mem_map.mpr ⟨t0, List.mem_dedup.mpr ht0, rfl⟩
  have hsum : rawW docs N toks t0 ^ 2 ≤ docNormSq docs N toks :=
    List.single_le_sum (fun x hx => by
      rcases List.mem_map.mp hx with ⟨u, _, rfl⟩
      positivity) _ hmem2
  linarith

/-- **C5.** After index build, every Document's tf·idf vector (here: the
document with token list `toks` of the index built from `data` in
`src/server.js`) has unit L2 norm whenever its term-frequency table is
non-empty, and is the all-zero vector when it is empty.  The index is a
pure function of the loaded rows and nothing mutates it after build, so
the invariant holds for the lifetime of the process. -/
theorem claim_unit_norm (data : List Row) (toks : List String)
    (hmem : toks ∈ SrvJs.docTokenLists data) :
    (toks ≠ [] →
      (toks.dedup.map fun t => SrvJs.tfidf data toks t ^ 2).sum = 1) ∧
    (toks = [] → ∀ t, SrvJs.tfidf data toks t = 0) := by
  constructor
  · intro hne
    have hdata : data ≠ [] := by
      intro hd
      rw [hd] at hmem
      exact absurd hmem (List.not_mem_nil _)
    have hNlen : (SrvJs.docTokenLists data).length ≤ SrvJs.NOf data := by
      rw [SrvJs.docTokenLists, List.length_map, SrvJs.NOf,
        if_neg (by simpa using hdata)]
    have hS : 0 < docNormSq (SrvJs.docTokenLists data) (SrvJs.NOf data) toks :=
      docNormSq_pos hmem hNlen hne
    set D := SrvJs.docTokenLists data
    set N := SrvJs.NOf data
    have hsqrt : 0 < Real.sqrt (docNormSq D N toks) := Real.sqrt_pos.mpr hS
    have hdenom : docDenom D N toks = Real.sqrt (docNormSq D N toks) := by
      rw [docDenom, if_neg (ne_of_gt hsqrt)]
    have hcong : (toks.dedup.map fun t => SrvJs.tfidf data toks t ^ 2) =
        toks.dedup.map fun t =>
          rawW D N toks t ^ 2 * (Real.sqrt (docNormSq D N toks) ^ 2)⁻¹ := by
      apply List.map_congr_left
      intro t htmem
      have ht : t ∈ toks := List.mem_dedup.mp htmem
      show tfidfOf D N toks t ^ 2 = _
      rw [tfidfOf, if_pos ht, hdenom, div_pow, div_eq_mul_inv]
    rw [hcong, List.sum_map_mul_right]
    show docNormSq D N toks * _ = 1
    rw [Real.sq_sqrt (le_of_lt hS)]
    exact mul_inv_cancel₀ (ne_of_gt hS)
  · intro hnil t
    show tfidfOf _ _ toks t = 0
    rw [tfidfOf, if_neg (by rw [hnil]; exact List.not_mem_nil t)]

/-- Witness for C5 at a concrete one-row dataset. -/
theorem claim_unit_norm_witness :
    (["a"] : List String) ∈ SrvJs.docTokenLists [[("Description", "a")]] ∧
    ((["a"] ≠ ([] : List String) →
      ((["a"] : List String).dedup.map fun t =>
        SrvJs.tfidf [[("Description", "a")]] ["a"] t ^ 2).sum = 1) ∧
     (["a"] = ([] : List String) → ∀ t,
        SrvJs.tfidf [[("Description", "a")]] ["a"] t = 0)) := by
  have hmem : (["a"] : List String) ∈
      SrvJs.docTokenLists [[("Description", "a")]] := by
    have htext : SrvJs.docText [("Description", "a")] = "a" := by decide
    have htok : SrvJs.docTokens [("Description", "a")] = ["a"] := by
      rw [SrvJs.docTokens, htext]
      simp [tokenize, normalizeText, normalizeChars, collapseWS, trimChars,
        wordsBy, keepChar, asciiLower, isLowerAlnum, isSpaceJS]
    simp [SrvJs.docTokenLists, htok]
  exact ⟨hmem, claim_unit_norm [[("Description", "a")]] ["a"] hmem⟩

/-! ### Claim C6: smoothed idf -/

theorem idfOf_strict_anti {docs : List (List String)} {N : ℕ} {s s' : String}
    (hs : 0 < dfOf docs s) (hlt : dfOf docs s < dfOf docs s') :
    idfOf docs N s' < idfOf docs N s := by
  have hs' : 0 < dfOf docs s' := lt_trans hs hlt
  rw [idfOf, idfOf, if_pos hs', if_pos hs]
  have hcast : ((dfOf docs s : ℝ)) + 1 < ((dfOf docs s' : ℝ)) + 1 := by
    have : ((dfOf docs s : ℝ)) < ((dfOf docs s' : ℝ)) := Nat.cast_lt.mpr hlt
    linarith
  have harg : ((N : ℝ) + 1) / ((dfOf docs s' : ℝ) + 1) <
      ((N : ℝ) + 1) / ((dfOf docs s : ℝ) + 1) :=
    div_lt_div_of_pos_left (by positivity) (by positivity) hcast
  have := Real.log_lt_log (by positivity) harg
  linarith

/-- **C6.** In the index built by `src/server.js` from a corpus of more
than one document, the smoothed idf `ln((N+1)/(df+1)) + 1` of a term
present in every document (`df = N`) is still strictly positive, it is
strictly smaller than the idf of a term present in exactly one document,
and in general the idf is strictly decreasing in document frequency over
the vocabulary. -/
theorem claim_idf_monotone (data : List Row) (t1 t2 : String)
    (hN : 1 < data.length)
    (h1 : dfOf (SrvJs.docTokenLists data) t1 = 1)
    (h2 : dfOf (SrvJs.docTokenLists data) t2 = data.length) :
    (0 < SrvJs.idf data t2) ∧
    (SrvJs.idf data t2 < SrvJs.idf data t1) ∧
    (∀ s s', 0 < dfOf (SrvJs.docTokenLists data) s →
      dfOf (SrvJs.docTokenLists data) s < dfOf (SrvJs.docTokenLists data) s' →
      SrvJs.idf data s' < SrvJs.idf data s) := by
  have hNOf : SrvJs.NOf data = data.length := by
    rw [SrvJs.NOf, if_neg (by omega)]
  refine ⟨?_, ?_, fun s s' hs hlt => idfOf_strict_anti hs hlt⟩
  · show 0 < idfOf _ _ t2
    rw [idfOf, if_pos (by omega), h2, hNOf]
    have hratio : ((data.length : ℝ) + 1) / ((data.length : ℝ) + 1) = 1 :=
      div_self (by positivity)
    rw [hratio, Real.log_one]
    norm_num
  · exact idfOf_strict_anti (by omega) (by omega)

/-- Witness for C6 at a two-row corpus where `"a"` occurs in both
documents and `"b"` in exactly one. -/
theorem claim_idf_monotone_witness :
    1 < ([[("Description", "a b")], [("Description", "a")]] : List Row).length ∧
    dfOf (SrvJs.docTokenLists
      [[("Description", "a b")], [("Description", "a")]]) "b" = 1 ∧
    dfOf (SrvJs.docTokenLists
      [[("Description", "a b")], [("Description", "a")]]) "a" =
      ([[("Description", "a b")], [("Description", "a")]] : List Row).length ∧
    ((0 < SrvJs.idf [[("Description", "a b")], [("Description", "a")]] "a") ∧
     (SrvJs.idf [[("Description", "a b")], [("Description", "a")]] "a" <
      SrvJs.idf [[("Description", "a b")], [("Description", "a")]] "b") ∧
     (∀ s s',
       0 < dfOf (SrvJs.docTokenLists
         [[("Description", "a b")], [("Description", "a")]]) s →
       dfOf (SrvJs.docTokenLists
         [[("Description", "a b")], [("Description", "a")]]) s <
         dfOf (SrvJs.docTokenLists
           [[("Description", "a b")], [("Description", "a")]]) s' →
       SrvJs.idf [[("Description", "a b")], [("Description", "a")]] s' <
         SrvJs.idf [[("Description", "a b")], [("Description", "a")]] s)) := by
  have htok1 : SrvJs.docTokens [("Description", "a b")] = ["a", "b"] := by
    have htext : SrvJs.docText [("Description", "a b")] = "a b" := by decide
    rw [SrvJs.docTokens, htext]
    simp [tokenize, normalizeText, normalizeChars, collapseWS, trimChars,
      wordsBy, keepChar, asciiLower, isLowerAlnum, isSpaceJS]
  have htok2 : SrvJs.docTokens [("Description", "a")] = ["a"] := by
    have htext : SrvJs.docText [("Description", "a")] = "a" := by decide
    rw [SrvJs.docTokens, htext]
    simp [tokenize, normalizeText, normalizeChars, collapseWS, trimChars,
      wordsBy, keepChar, asciiLower, isLowerAlnum, isSpaceJS]
  have hD : SrvJs.docTokenLists
      [[("Description", "a b")], [("Description", "a")]] =
      [["a", "b"], ["a"]] := by
    simp [SrvJs.docTokenLists, htok1, htok2]
  have hdb : dfOf (SrvJs.docTokenLists
      [[("Description", "a b")], [("Description", "a")]]) "b" = 1 := by
    rw [hD]; decide
  have hda : dfOf (SrvJs.docTokenLists
      [[("Description", "a b")], [("Description", "a")]]) "a" = 2 := by
    rw [hD]; decide
  exact ⟨by norm_num, hdb, hda,
    claim_idf_monotone _ "b" "a" (by norm_num) hdb hda⟩

/-! ### Claim C3: the summarizer's output format -/

theorem sentencesOf_ab : SrvJs.sentencesOf "a\nb" = ["a", "b"] := by
  simp [SrvJs.sentencesOf, wordsBy, trimChars, isSpaceJS]

theorem lineScore_empty_query (s : String) :
    SrvJs.lineScore (tokenize "") s = 0 := by
  have hq : tokenize "" = [] := by
    simp [tokenize, normalizeText, normalizeChars, collapseWS, trimChars,
      wordsBy]
  rw [hq]
  have hcos : cosineSimilarity [] (tokenize s) = 0 := by
    rw [cosineSimilarity]
    have hmag : Real.sqrt ((((([] : List String) ++ tokenize s).dedup.map
        fun t => ((([] : List String).count t : ℝ)) ^ 2)).sum) = 0 := by
      have : ((((([] : List String) ++ tokenize s).dedup.map
          fun t => ((([] : List String).count t : ℝ)) ^ 2)).sum) = 0 := by
        simp
      rw [this, Real.sqrt_zero]
    simp only [hmag]
    simp
  have hjac : jaccardScore ([] : List String).toFinset (tokenize s) = 0 := by
    rw [jaccardScore]
    simp
  rw [SrvJs.lineScore, hcos, hjac]
  simp [overlapCount]

/-- **C3, counterexample.**  On the two-line input `"a\nb"` with the empty
query (all line scores `0`, stable order kept) the summarizer of
`src/server.js` returns `"a b"`: the two selected lines are joined by a
*space*, not separated by a blank line as the claim states (that would be
`"a\n\nb"`).  The source builds the output in pairs —
`top.slice(i, i+2).join(" ") + "\n\n"` — so blank lines separate *pairs*
of lines only. -/
theorem claim_summarizer_counterexample :
    SrvJs.extractTopSentences (some "a\nb") "" = some "a b" ∧
    ("a b" : String) ≠ "a" ++ "\n\n" ++ "b" := by
  refine ⟨?_, by decide⟩
  have hne : ("a\nb" : String) ≠ "" := by decide
  have hls : ∀ s : String, SrvJs.lineScore (tokenize "") s = 0 :=
    lineScore_empty_query
  simp only [SrvJs.extractTopSentences, if_neg hne, sentencesOf_ab,
    List.map_cons, List.map_nil, hls, List.insertionSort,
    List.orderedInsert]
  rw [if_pos (le_refl (0 : ℝ))]
  show some (trimString (SrvJs.pairJoin ((([(("a" : String), (0 : ℝ)),
    ("b", 0)].take 6)).map Prod.fst))) = some "a b"
  norm_num [SrvJs.pairJoin]
  decide

/-- **C3, amended.**  For every input text with at least one non-empty
line and every query, the summarizer of `src/server.js` selects the top 6
highest-scoring lines in descending score order (stable), and returns
them grouped into consecutive pairs in ranking order: the two lines of a
pair are joined by a single space, and pairs are separated by blank
lines (the trailing separator trimmed).  Every selected line scores at
least as high as every unselected one.  (The `part_002` variant instead
emits its top 5 lines each separated by a blank line.) -/
theorem claim_summarizer_amended (txt question : String)
    (h : SrvJs.sentencesOf txt ≠ []) :
    ∃ sel : List (String × ℝ),
      sel.length = min 6 (SrvJs.sentencesOf txt).length ∧
      (∀ p ∈ sel, p.1 ∈ SrvJs.sentencesOf txt ∧
        p.2 = SrvJs.lineScore (tokenize question) p.1) ∧
      (sel.map Prod.snd).Sorted (· ≥ ·) ∧
      (∃ rest, (sel ++ rest).Perm
          ((SrvJs.sentencesOf txt).map fun s =>
            (s, SrvJs.lineScore (tokenize question) s)) ∧
        ∀ p ∈ sel, ∀ r ∈ rest, r.2 ≤ p.2) ∧
      SrvJs.extractTopSentences (some txt) question =
        some (trimString (SrvJs.pairJoin (sel.map Prod.fst))) := by
  have hne : txt ≠ "" := by
    intro heq
    apply h
    rw [heq]
    simp [SrvJs.sentencesOf, wordsBy]
  set qT := tokenize question with hqT
  set S := SrvJs.sentencesOf txt with hS
  set scored := S.map (fun s => (s, SrvJs.lineScore qT s)) with hscored
  set sorted :=
    List.insertionSort (fun a b : String × ℝ => b.2 ≤ a.2) scored with hsorted
  have hsort : List.Sorted (fun a b : String × ℝ => b.2 ≤ a.2) sorted :=
    List.sorted_insertionSort _ _
  have hperm : sorted.Perm scored := List.perm_insertionSort _ _
  refine ⟨sorted.take 6, ?_, ?_, ?_, ⟨sorted.drop 6, ?_, ?_⟩, ?_⟩
  · rw [List.length_take, hsorted, List.length_insertionSort, hscored,
      List.length_map]
  · intro p hp
    have hp1 : p ∈ sorted := (List.take_sublist _ _).mem hp
    have hp2 : p ∈ scored := hperm.mem_iff.mp hp1
    rcases List.mem_map.mp hp2 with ⟨s, hs, rfl⟩
    exact ⟨hs, rfl⟩
  · have h2 : List.Sorted (fun a b : String × ℝ => b.2 ≤ a.2)
        (sorted.take 6) :=
      List.Pairwise.sublist (List.take_sublist _ _) hsort
    exact List.pairwise_map.mpr h2
  · rw [List.take_append_drop]
    exact hperm
  · have h2 : List.Pairwise (fun a b : String × ℝ => b.2 ≤ a.2)
        (sorted.take 6 ++ sorted.drop 6) := by
      rw [List.take_append_drop]
      exact hsort
    exact fun p hp r hr => (List.pairwise_append.mp h2).2.2 p hp r hr
  · cases hcase : S with
    | nil => exact absurd hcase h
    | cons s0 ss =>
      rw [hS] at hcase
      simp only [SrvJs.extractTopSentences, if_neg hne, hcase]
      rw [hsorted, hscored, hS, hcase]

/-- Witness for the amended C3 at the concrete two-line input. -/
theorem claim_summarizer_amended_witness :
    SrvJs.sentencesOf "a\nb" ≠ [] ∧
    (∃ sel : List (String × ℝ),
      sel.length = min 6 (SrvJs.sentencesOf "a\nb").length ∧
      (∀ p ∈ sel, p.1 ∈ SrvJs.sentencesOf "a\nb" ∧
        p.2 = SrvJs.lineScore (tokenize "flood data") p.1) ∧
      (sel.map Prod.snd).Sorted (· ≥ ·) ∧
      (∃ rest, (sel ++ rest).Perm
          ((SrvJs.sentencesOf "a\nb").map fun s =>
            (s, SrvJs.lineScore (tokenize "flood data") s)) ∧
        ∀ p ∈ sel, ∀ r ∈ rest, r.2 ≤ p.2) ∧
      SrvJs.extractTopSentences (some "a\nb") "flood data" =
        some (trimString (SrvJs.pairJoin (sel.map Prod.fst)))) :=
  ⟨by rw [sentencesOf_ab]; simp,
   claim_summarizer_amended "a\nb" "flood data"
     (by rw [sentencesOf_ab]; simp)⟩

end Chatbot